import Mathlib

/-!
Verification development for the HRML template engine
(`src/template.rs`): parser, resolver (load/slot/block composition with
cycle detection), renderer and context.

The embedding works over `List Char` (Rust `&str` handling in the engine is
character-based: the parser stores `chars: Vec<char>` and an index `pos`).
Loops of the Rust source are modelled as fuel-indexed structural recursions:
the fuel argument only bounds recursion depth so that every definition is a
total, kernel-computable function; wrappers supply enough fuel that the
fuel-exhaustion branch is unreachable (proved where a claim depends on it).
`HashMap`/`HashSet` are modelled as association lists with last-write-wins
insertion, matching the observable lookup behaviour.
-/

abbrev Str := List Char

abbrev AttrMap := List (Str × Str)

/-- `HashMap::insert`: overwrite the value when the key is present,
otherwise add the binding. -/
def amInsert (m : AttrMap) (k v : Str) : AttrMap :=
  if (m.lookup k).isSome then
    m.map (fun kv => if kv.1 = k then (k, v) else kv)
  else
    m ++ [(k, v)]

/-- `chars[pos]`; the default is irrelevant since every use is guarded by
`pos < chars.len()`. -/
def charAt (cs : Str) (pos : Nat) : Char := cs.getD pos ' '

/-- `Parser::starts_with`: `pos + s.len() <= chars.len()` and the characters
of `s` match `chars[pos..]`. -/
def startsWithAt (cs : Str) (pos : Nat) (s : Str) : Bool :=
  decide (pos + s.length ≤ cs.length) && s.isPrefixOf (cs.drop pos)

-- --- AST (`enum Node`) ---

inductive Node where
  | Text (s : Str)
  | Element (name : Str) (attrs : AttrMap) (children : List Node)
  | VoidElement (name : Str) (attrs : AttrMap)
deriving Inhabited

/-- `Node::is_void`: the fixed set of void tag names. -/
def isVoidName (name : Str) : Bool :=
  (["load", "get", "else", "include",
    "input", "br", "hr", "img", "meta", "link", "area", "base", "col",
    "embed", "param", "source", "track", "wbr"].map String.toList).contains name

/-- Error domain of the engine.  The Rust source uses `String` errors; the
constructors here mirror its distinct error messages.  `fuelOut` is the
artifact of the fuel embedding and corresponds to no source behaviour. -/
inductive TErr where
  | fuelOut
  | loopGuard (pos : Nat)
  | loopGuardUntil (name : Str) (pos : Nat)
  | circular (path : Str)
  | readFail (path : Str)

-- --- Parser scanning helpers ---
-- Each models one `while` loop of the source; `gas` bounds the iteration
-- count and every call site passes `cs.length + 1`, which exceeds the
-- number of iterations any of these loops can perform (each iteration
-- advances `pos` by at least one and stops once `pos ≥ cs.length`).

/-- `while pos < len && chars[pos].is_whitespace() { pos += 1 }` -/
def skipWs : Nat → Str → Nat → Nat
  | 0, _, pos => pos
  | gas+1, cs, pos =>
    if pos < cs.length && (charAt cs pos).isWhitespace then
      skipWs gas cs (pos+1)
    else pos

def isIdentChar (c : Char) : Bool := c.isAlphanum || c = '_' || c = '-'

/-- identifier-collecting loop of `consume_identifier` -/
def identScan : Nat → Str → Nat → Str → (Str × Nat)
  | 0, _, pos, acc => (acc, pos)
  | gas+1, cs, pos, acc =>
    if pos < cs.length && isIdentChar (charAt cs pos) then
      identScan gas cs (pos+1) (acc ++ [charAt cs pos])
    else (acc, pos)

/-- `consume_identifier`: skip whitespace, then collect
alphanumeric/`_`/`-` characters. -/
def consumeIdentifier (gas : Nat) (cs : Str) (pos : Nat) : Str × Nat :=
  identScan gas cs (skipWs gas cs pos) []

/-- text-collecting loop of `consume_text`: stop at a directive opener
`<?` (that is not `</?`) or at any closing sequence `</?`. -/
def textScan : Nat → Str → Nat → Str → (Str × Nat)
  | 0, _, pos, acc => (acc, pos)
  | gas+1, cs, pos, acc =>
    if pos < cs.length then
      if startsWithAt cs pos ("<?".toList) && !(startsWithAt cs pos ("</?".toList)) then
        (acc, pos)
      else if startsWithAt cs pos ("</?".toList) then
        (acc, pos)
      else
        textScan gas cs (pos+1) (acc ++ [charAt cs pos])
    else (acc, pos)

/-- `consume_closing`: scan forward until `?>` and consume it. -/
def closingScan : Nat → Str → Nat → Nat
  | 0, _, pos => pos
  | gas+1, cs, pos =>
    if pos < cs.length then
      if startsWithAt cs pos ("?>".toList) then pos + 2
      else closingScan gas cs (pos+1)
    else pos

/-- the `while pos < len && !starts_with("?>")` scan of `parse_element` -/
def elemScan : Nat → Str → Nat → Nat
  | 0, _, pos => pos
  | gas+1, cs, pos =>
    if pos < cs.length && !(startsWithAt cs pos ("?>".toList)) then
      elemScan gas cs (pos+1)
    else pos

/-- quoted attribute value scan: collect until the matching quote. -/
def quoteScan : Nat → Str → Char → Nat → Str → (Str × Nat)
  | 0, _, _, pos, acc => (acc, pos)
  | gas+1, cs, quote, pos, acc =>
    if pos < cs.length && !(charAt cs pos = quote) then
      quoteScan gas cs quote (pos+1) (acc ++ [charAt cs pos])
    else (acc, pos)

/-- unquoted attribute value scan: collect until whitespace, `?` or `>`. -/
def unquotedScan : Nat → Str → Nat → Str → (Str × Nat)
  | 0, _, pos, acc => (acc, pos)
  | gas+1, cs, pos, acc =>
    if pos < cs.length && !(charAt cs pos).isWhitespace
        && !(charAt cs pos = '?') && !(charAt cs pos = '>') then
      unquotedScan gas cs (pos+1) (acc ++ [charAt cs pos])
    else (acc, pos)

def gasOf (cs : Str) : Nat := cs.length + 1

/-- value portion of one `parse_attributes` iteration, entered just past
the attribute key: skip whitespace; on `=`, skip whitespace and read a
quoted or unquoted value; otherwise the value is empty. -/
def attrValue (cs : Str) (p2 : Nat) : Str × Nat :=
  let p3 := skipWs (gasOf cs) cs p2
  if decide (p3 < cs.length) && (charAt cs p3 = '=') then
    let p4 := skipWs (gasOf cs) cs (p3 + 1)
    if p4 < cs.length then
      let quote := charAt cs p4
      if quote = '"' || quote = '\'' then
        let qs := quoteScan (gasOf cs) cs quote (p4 + 1) []
        (qs.1, qs.2 + 1)
      else
        unquotedScan (gasOf cs) cs p4 []
    else (([] : Str), p4)
  else (([] : Str), p3)

/-- `parse_attributes`: the attribute-collecting loop. -/
def attrsLoop : Nat → Str → Nat → AttrMap → (AttrMap × Nat)
  | 0, _, pos, attrs => (attrs, pos)
  | gas+1, cs, pos, attrs =>
    let p := skipWs (gasOf cs) cs pos
    if decide (cs.length ≤ p) || startsWithAt cs p ("?>".toList)
        || startsWithAt cs p ("/?>".toList) then
      (attrs, p)
    else
      let kp := consumeIdentifier (gasOf cs) cs p
      if kp.1 = [] then
        attrsLoop gas cs (if startsWithAt cs kp.2 ("?>".toList) then kp.2 else kp.2 + 1) attrs
      else
        let vp := attrValue cs kp.2
        attrsLoop gas cs vp.2 (amInsert attrs kp.1 vp.1)

/-- `is_closing`: the upcoming text begins with `</?` + `name`, followed by
end of input, whitespace, `?` or `>`. -/
def isClosing (cs : Str) (pos : Nat) (name : Str) : Bool :=
  let pat := ("</?".toList) ++ name
  startsWithAt cs pos pat &&
    (decide (cs.length ≤ pos + pat.length) ||
      (let c := charAt cs (pos + pat.length)
       c.isWhitespace || c = '?' || c = '>'))

-- --- Parser core (`parse_node` / `parse_element` / `parse_until`) ---
-- The three mutually recursive routines of the source are packaged as one
-- fuel-structural function dispatching on a call descriptor, so that the
-- definition is structurally recursive (hence kernel-computable); each
-- branch mirrors its source routine line by line.

/-- call descriptor: which of the three parser routines runs, with its
source arguments. -/
inductive PCall where
  | node (pos : Nat)
  | elem (pos : Nat)
  | untl (name : Str) (iters : Nat) (pos : Nat) (acc : List Node)

/-- result type of each parser routine. -/
def PRetT : PCall → Type
  | .node _ => Option Node × Nat
  | .elem _ => Node × Nat
  | .untl .. => List Node × Nat

/-- head portion of `parse_element` after the opening `<?`: the name,
the attributes, and the position just past the `?>` (the source skips
`<?`, reads the identifier, reads attributes, skips whitespace, and
either consumes `?>` directly or scans forward to it). -/
def elemHead (cs : Str) (pos : Nat) : Str × AttrMap × Nat :=
  let np := consumeIdentifier (gasOf cs) cs (pos + 2)
  let ap := attrsLoop (gasOf cs) cs np.2 []
  let p4 := skipWs (gasOf cs) cs ap.2
  let p5 :=
    if startsWithAt cs p4 ("?>".toList) then p4 + 2
    else
      let q := elemScan (gasOf cs) cs p4
      if startsWithAt cs q ("?>".toList) then q + 2 else q
  (np.1, ap.1, p5)

/-- `parse_node` / `parse_element` / `parse_until`:
* `node`: `None` at end of input; an element at `<?` (not `</?`);
  otherwise literal text (a stray `</?` also falls into `consume_text`,
  which stops immediately, yielding an empty `Text` node);
* `elem`: skip `<?`, read name and attributes, consume `?>` (scanning
  forward to it if necessary); void names yield `VoidElement`, all other
  names scan children via `untl`;
* `untl`: collect child nodes until the matching closing sequence, end of
  input (tolerated), or the 10000-iteration guard trips. -/
def parseStep : Nat → Str → (c : PCall) → Except TErr (PRetT c)
  | 0, _, _ => .error .fuelOut
  | fuel+1, cs, .node pos =>
    if cs.length ≤ pos then .ok (none, pos)
    else if startsWithAt cs pos ("<?".toList) && !(startsWithAt cs pos ("</?".toList)) then
      (parseStep fuel cs (.elem pos)).map (fun np => (some np.1, np.2))
    else if startsWithAt cs pos ("</?".toList) then
      let tp := textScan (gasOf cs) cs pos []
      .ok (some (.Text tp.1), tp.2)
    else
      let tp := textScan (gasOf cs) cs pos []
      .ok (some (.Text tp.1), tp.2)
  | fuel+1, cs, .elem pos =>
    let hd := elemHead cs pos
    if isVoidName hd.1 then .ok (.VoidElement hd.1 hd.2.1, hd.2.2)
    else
      (parseStep fuel cs (.untl hd.1 0 hd.2.2 [])).map
        (fun rp => (.Element hd.1 hd.2.1 rp.1, rp.2))
  | fuel+1, cs, .untl name iters pos acc =>
    if cs.length ≤ pos then .ok (acc, pos)
    else if iters + 1 > 10000 then .error (.loopGuardUntil name pos)
    else if isClosing cs pos name then .ok (acc, closingScan (gasOf cs) cs pos)
    else
      match parseStep fuel cs (.node pos) with
      | .error e => .error e
      | .ok (some n, p) => parseStep fuel cs (.untl name (iters + 1) p (acc ++ [n]))
      | .ok (none, p) => .ok (acc, p)

/-- `parse_node` -/
def parseNodeF (fuel : Nat) (cs : Str) (pos : Nat) : Except TErr (Option Node × Nat) :=
  parseStep fuel cs (.node pos)

/-- `Parser::parse`: the top-level node loop with its 10000-iteration
guard (`"Parser infinite loop detected at pos {}"`). -/
def topLoopF : Nat → Str → Nat → Nat → List Node → Except TErr (List Node)
  | 0, _, _, _, _ => .error .fuelOut
  | fuel+1, cs, iters, pos, acc =>
    if cs.length ≤ pos then .ok acc
    else if iters + 1 > 10000 then .error (.loopGuard pos)
    else
      match parseNodeF fuel cs pos with
      | .error e => .error e
      | .ok (some n, p) => topLoopF fuel cs (iters + 1) p (acc ++ [n])
      | .ok (none, _) => .ok acc

/-- fuel large enough that the fuel-exhaustion branch is unreachable
(proved in `topLoop_no_fuelOut`). -/
def parseFuel (cs : Str) : Nat := 10010 * (cs.length + 3)

/-- `Parser::new(input).parse()` -/
def parse (cs : Str) : Except TErr (List Node) :=
  topLoopF (parseFuel cs) cs 0 0 []

-- --- String helpers used by the renderer (Rust `str` methods) ---

/-- `str::contains` (substring test). -/
def isInfixL (pat : Str) : Str → Bool
  | [] => pat.isEmpty
  | c :: rest => pat.isPrefixOf (c :: rest) || isInfixL pat rest

/-- scanning loop of `str::split`: non-overlapping leftmost matches of a
non-empty separator. -/
def splitOnAux : Nat → Str → Str → Str → List Str
  | 0, _, rem, cur => [cur ++ rem]
  | gas+1, sep, rem, cur =>
    match rem with
    | [] => [cur]
    | c :: rest =>
      if sep.isPrefixOf rem then cur :: splitOnAux gas sep (rem.drop sep.length) []
      else splitOnAux gas sep rest (cur ++ [c])

/-- `str::split` with a non-empty separator. -/
def splitOnL (sep s : Str) : List Str := splitOnAux (s.length + 1) sep s []

/-- `str::trim` -/
def trimWs (s : Str) : Str :=
  ((s.dropWhile Char.isWhitespace).reverse.dropWhile Char.isWhitespace).reverse

/-- `str::trim_matches(c)` -/
def trimMatches (c : Char) (s : Str) : Str :=
  ((s.dropWhile (· = c)).reverse.dropWhile (· = c)).reverse

/-- `str::split_whitespace().next()` -/
def splitWsHead (s : Str) : Option Str :=
  let t := s.dropWhile Char.isWhitespace
  if t = [] then none else some (t.takeWhile (fun c => !c.isWhitespace))

-- --- Data values (`serde_json::Value`) and `Context` ---

inductive JValue where
  | null
  | bool (b : Bool)
  | num (n : Int)
  | str (s : Str)
  | arr (xs : List JValue)
  | obj (fields : List (Str × JValue))

/-- `serde_json::Value::get` with a string key: object field lookup,
`None` on every other variant. -/
def jGet (v : JValue) (key : Str) : Option JValue :=
  match v with
  | .obj fields => fields.lookup key
  | _ => none

structure Ctx where
  data : JValue
  vars : List (Str × Str)

/-- `Context::set` — `HashMap::insert`; the list is consulted only through
`lookup`, for which front insertion is last-write-wins. -/
def ctxSet (c : Ctx) (key value : Str) : Ctx :=
  { c with vars := (key, value) :: c.vars }

/-- the `for part in parts { current.get(part) }` traversal of
`Context::get`. -/
def walkParts : JValue → List Str → Option JValue
  | cur, [] => some cur
  | cur, p :: rest =>
    match jGet cur p with
    | some v => walkParts v rest
    | none => none

/-- final scalar formatting of `Context::get`: strings unchanged,
numbers/booleans via `to_string`, everything else empty. -/
def stringifyScalar : JValue → Str
  | .str s => s
  | .num n => (toString n).toList
  | .bool b => (toString b).toList
  | _ => []

/-- `Context::get`: overlay first, then dotted-path traversal of the data
tree, empty string on any miss. -/
def ctxGet (c : Ctx) (key : Str) : Str :=
  match c.vars.lookup key with
  | some val => val
  | none =>
    match walkParts c.data (splitOnL (".".toList) key) with
    | some cur => stringifyScalar cur
    | none => []

-- --- Renderer ---

/-- `split_if_children`: children before an `else` void marker go to the
true branch, children after it to the false branch; the marker itself is
dropped. -/
def isElseMarker : Node → Bool
  | .VoidElement name _ => name = "else".toList
  | _ => false

def splitIfAux : List Node → Bool → (List Node × List Node)
  | [], _ => ([], [])
  | n :: rest, inElse =>
    if isElseMarker n then splitIfAux rest true
    else
      let tf := splitIfAux rest inElse
      if inElse then (tf.1, n :: tf.2) else (n :: tf.1, tf.2)

def splitIfChildren (children : List Node) : List Node × List Node :=
  splitIfAux children false

/-- `eval_condition`: with `==` present and exactly two split parts,
compare the looked-up, trimmed left side against the trimmed,
quote-stripped right side; otherwise truthiness of the whole condition
as a variable name. -/
def evalCondition (cond : Str) (ctx : Ctx) : Bool :=
  if isInfixL ("==".toList) cond then
    let parts := splitOnL ("==".toList) cond
    if parts.length = 2 then
      let left := ctxGet ctx (trimWs (parts.getD 0 []))
      let right := trimMatches '\'' (trimMatches '"' (trimWs (parts.getD 1 [])))
      left == right
    else !(ctxGet ctx cond).isEmpty
  else !(ctxGet ctx cond).isEmpty

/-- call descriptor for the renderer routines `render_nodes`,
`render_node`, `render_if`, `render_for` and the iteration loop inside
`render_for`. -/
inductive RCall where
  | nodes (ns : List Node) (ctx : Ctx)
  | node (n : Node) (ctx : Ctx)
  | rif (attrs : AttrMap) (children : List Node) (ctx : Ctx)
  | rfor (attrs : AttrMap) (children : List Node) (ctx : Ctx)
  | rforLoop (items : List Str) (itemVar : Str) (children : List Node) (ctx : Ctx) (out : Str)

/-- `render_for` takes the context immutably and returns only a string;
the other routines thread the mutable context through. -/
def RRetT : RCall → Type
  | .rfor .. => Str
  | .rforLoop .. => Str
  | _ => Str × Ctx

def voidSetStep (attrs : AttrMap) (c : Ctx) (kv : Str × Str) : Ctx :=
  if kv.1 = "id".toList then
    match attrs.lookup ("value".toList) with
    | some val => ctxSet c kv.1 val
    | none => c
  else if !(kv.1 = "value".toList) then
    -- dead in the source: requires `k == "id"` inside the `k != "id"` arm
    if kv.1 = "id".toList && (attrs.lookup ("value".toList)).isSome then
      match attrs.lookup ("id".toList), attrs.lookup ("value".toList) with
      | some i, some v => ctxSet c i v
      | _, _ => c
    else c
  else c

/-- the fixed placeholder collection iterated by `render_for`. -/
def forItems : List Str := ["item1".toList, "item2".toList, "item3".toList]

/-- `render_nodes` / `render_node` / `render_if` / `render_for`, one
fuel-structural dispatcher; each branch mirrors its source routine. -/
def renderStep : Nat → (c : RCall) → Except TErr (RRetT c)
  | 0, _ => .error .fuelOut
  | fuel+1, .nodes ns ctx =>
    match ns with
    | [] => .ok ([], ctx)
    | n :: rest =>
      match renderStep fuel (.node n ctx) with
      | .error e => .error e
      | .ok (s, ctx1) =>
        match renderStep fuel (.nodes rest ctx1) with
        | .error e => .error e
        | .ok (s2, ctx2) => .ok (s ++ s2, ctx2)
  | fuel+1, .node n ctx =>
    match n with
    | .Text s => .ok (s, ctx)
    | .VoidElement name attrs =>
      if name = "load".toList then .ok ([], ctx)
      else if name = "else".toList then .ok ([], ctx)
      else if name = "set".toList then
        let ctx1 := attrs.foldl (voidSetStep attrs) ctx
        match attrs.lookup ("id".toList), attrs.lookup ("value".toList) with
        | some id, some val => .ok ([], ctxSet ctx1 id val)
        | _, _ => .ok ([], ctx1)
      else if name = "get".toList then
        match attrs.lookup ("id".toList) with
        | some id => .ok (ctxGet ctx id, ctx)
        | none => .ok ([], ctx)
      else .ok ([], ctx)
    | .Element name attrs children =>
      if name = "block".toList then renderStep fuel (.nodes children ctx)
      else if name = "slot".toList then renderStep fuel (.nodes children ctx)
      else if name = "if".toList then renderStep fuel (.rif attrs children ctx)
      else if name = "for".toList then
        match renderStep fuel (.rfor attrs children ctx) with
        | .error e => .error e
        | .ok s => .ok (s, ctx)
      else if name = "set".toList then
        match attrs.lookup ("id".toList) with
        | some id =>
          match renderStep fuel (.nodes children ctx) with
          | .error e => .error e
          | .ok (content, ctx1) => .ok ([], ctxSet ctx1 id content)
        | none =>
          -- dead in the source: this arm requires `id` to be absent,
          -- the inner pattern requires it present
          match attrs.lookup ("id".toList), attrs.lookup ("value".toList) with
          | some id, some val => .ok ([], ctxSet ctx id val)
          | _, _ => .ok ([], ctx)
      else if name = "btn".toList then
        match renderStep fuel (.nodes children ctx) with
        | .error e => .error e
        | .ok (inner, ctx1) =>
          let method := if (attrs.lookup ("post".toList)).isSome
                        then "post".toList else "get".toList
          let endpoint := (attrs.lookup method).getD []
          let target := (attrs.lookup ("target".toList)).getD ("#body".toList)
          let swap := (attrs.lookup ("swap".toList)).getD ("innerHTML".toList)
          .ok (("<button class=\"btn btn-primary\" data-".toList) ++ method
            ++ ("=\"".toList) ++ endpoint ++ ("\" data-target=\"".toList) ++ target
            ++ ("\" data-swap=\"".toList) ++ swap ++ ("\">".toList) ++ inner
            ++ ("</button>".toList), ctx1)
      else if name = "link".toList then
        match renderStep fuel (.nodes children ctx) with
        | .error e => .error e
        | .ok (inner, ctx1) =>
          let endpoint := (attrs.lookup ("get".toList)).getD []
          let target := (attrs.lookup ("target".toList)).getD ("#body".toList)
          let swap := (attrs.lookup ("swap".toList)).getD ("innerHTML".toList)
          .ok (("<a href=\"#\" data-get=\"".toList) ++ endpoint
            ++ ("\" data-target=\"".toList) ++ target
            ++ ("\" data-swap=\"".toList) ++ swap ++ ("\">".toList) ++ inner
            ++ ("</a>".toList), ctx1)
      else if name = "form".toList then
        match renderStep fuel (.nodes children ctx) with
        | .error e => .error e
        | .ok (inner, ctx1) =>
          let endpoint := (attrs.lookup ("post".toList)).getD []
          let target := (attrs.lookup ("target".toList)).getD ("#body".toList)
          let swap := (attrs.lookup ("swap".toList)).getD ("innerHTML".toList)
          .ok (("<form data-post=\"".toList) ++ endpoint
            ++ ("\" data-target=\"".toList) ++ target
            ++ ("\" data-swap=\"".toList) ++ swap ++ ("\">".toList) ++ inner
            ++ ("</form>".toList), ctx1)
      else renderStep fuel (.nodes children ctx)
  | fuel+1, .rif attrs children ctx =>
    let cond := (attrs.lookup ("cond".toList)).getD []
    let isTrue := evalCondition cond ctx
    let tf := splitIfChildren children
    if isTrue then renderStep fuel (.nodes tf.1 ctx)
    else renderStep fuel (.nodes tf.2 ctx)
  | fuel+1, .rfor attrs children ctx =>
    let itemVar := ((attrs.lookup ("in".toList)).bind splitWsHead).getD ("item".toList)
    renderStep fuel (.rforLoop forItems itemVar children ctx [])
  | fuel+1, .rforLoop items itemVar children ctx out =>
    match items with
    | [] => .ok out
    | item :: rest =>
      let loopCtx := ctxSet ctx itemVar item
      match renderStep fuel (.nodes children loopCtx) with
      | .error e => .error e
      | .ok (s, _) => renderStep fuel (.rforLoop rest itemVar children ctx (out ++ s))

/-- `render_nodes` -/
def renderNodes (fuel : Nat) (ns : List Node) (ctx : Ctx) : Except TErr (Str × Ctx) :=
  renderStep fuel (.nodes ns ctx)

/-- `render_node` -/
def renderNode (fuel : Nat) (n : Node) (ctx : Ctx) : Except TErr (Str × Ctx) :=
  renderStep fuel (.node n ctx)

-- --- Resolver (`resolve_with_tracking`, `extract_blocks`, `inject_blocks`) ---

/-- generic `HashMap::insert`: overwrite when present, append otherwise. -/
def bmInsert (m : List (Str × List Node)) (k : Str) (v : List Node) : List (Str × List Node) :=
  if (m.lookup k).isSome then
    m.map (fun kv => if kv.1 = k then (k, v) else kv)
  else m ++ [(k, v)]

/-- `extract_blocks`: collect children of top-level `block` elements,
keyed by their `slot` attribute (later blocks overwrite earlier ones). -/
def extractBlocks (nodes : List Node) : List (Str × List Node) :=
  nodes.foldl
    (fun blocks n =>
      match n with
      | .Element name attrs children =>
        if name = "block".toList then
          match attrs.lookup ("slot".toList) with
          | some slot => bmInsert blocks slot children
          | none => blocks
        else blocks
      | _ => blocks) []

def isBlockElem : Node → Bool
  | .Element name _ _ => name = "block".toList
  | _ => false

/-- `inject_blocks`: a `slot` element with an `id` matching a block is
replaced by the block content; a `slot` without a match dissolves into
its (recursively processed) children; other elements are processed
recursively; the fuel exceeds the size of every tree arising during
resolution (see `injectFuel`; the zero-fuel branch returns the input). -/
def injectBlocksF : Nat → List (Str × List Node) → List Node → List Node
  | 0, _, ns => ns
  | _+1, _, [] => []
  | fuel+1, blocks, node :: rest =>
    (match node with
     | .Element name attrs children =>
       if name = "slot".toList then
         match attrs.lookup ("id".toList) with
         | some id =>
           (match blocks.lookup id with
            | some content => content
            | none => injectBlocksF fuel blocks children)
         | none => injectBlocksF fuel blocks children
       else [.Element name attrs (injectBlocksF fuel blocks children)]
     | other => [other]) ++ injectBlocksF fuel blocks rest

/-- The template storage: the file system restricted to the template
base path — a mapping from relative path to file content.
`fs::read_to_string` is lookup; a missing path is the wrapped IO error. -/
abbrev TemplateFS := List (Str × Str)

/-- fuel for `injectBlocksF` calls during resolution: strictly larger
than the number of nodes of any tree composable from the stored
templates (each file of length `L` parses to at most `L` nodes, block
injection at each of the at most `fs.length` resolution levels can
multiply the size by at most the total stored content size). -/
def injectFuel (fs : TemplateFS) : Nat :=
  ((fs.map (fun kv => kv.2.length)).sum + 2) ^ (fs.length + 3)

/-- call descriptor for `resolve_with_tracking` and its `for node in
nodes` loop. -/
inductive RsCall where
  | resolve (path : Str) (visited : List Str)
  | loop (blocks : List (Str × List Node)) (nodes : List Node)
      (visited : List Str) (acc : List Node)

/-- `resolve_with_tracking`: chain-scoped cycle detection (the `visited`
set is threaded through the `load` expansions and the path is removed
again before returning), file lookup, parse, block extraction/removal,
and recursive expansion of top-level `load` directives with block
injection into the loaded subtree. -/
def resolveStep : Nat → TemplateFS → RsCall → Except TErr (List Node × List Str)
  | 0, _, _ => .error .fuelOut
  | fuel+1, fs, .resolve path visited =>
    if visited.contains path then .error (.circular path)
    else
      let visited1 := path :: visited
      match fs.lookup path with
      | none => .error (.readFail path)
      | some content =>
        match parse content with
        | .error e => .error e
        | .ok nodes =>
          let blocks := extractBlocks nodes
          let nodes1 := nodes.filter (fun n => !(isBlockElem n))
          match resolveStep fuel fs (.loop blocks nodes1 visited1 []) with
          | .error e => .error e
          | .ok (resolved, visited2) => .ok (resolved, visited2.erase path)
  | fuel+1, fs, .loop blocks nodes visited acc =>
    match nodes with
    | [] => .ok (acc, visited)
    | node :: rest =>
      match node with
      | .VoidElement name attrs =>
        if name = "load".toList then
          match attrs.lookup ("file".toList) with
          | some file =>
            match resolveStep fuel fs (.resolve file visited) with
            | .error e => .error e
            | .ok (loaded, visited2) =>
              let injected := injectBlocksF (injectFuel fs) blocks loaded
              resolveStep fuel fs (.loop blocks rest visited2 (acc ++ injected))
          | none => resolveStep fuel fs (.loop blocks rest visited (acc ++ [node]))
        else resolveStep fuel fs (.loop blocks rest visited (acc ++ [node]))
      | _ => resolveStep fuel fs (.loop blocks rest visited (acc ++ [node]))

/-- fuel for resolution: the recursion depth is bounded by the chain
length (at most `fs.length + 1` before a cycle or read failure) times
the per-level top-level node count (at most 10000, the parser's
iteration guard). -/
def resolveFuel (fs : TemplateFS) : Nat := 10002 * (fs.length + 2)

/-- `resolve` (fresh visited set). -/
def resolveT (fs : TemplateFS) (path : Str) : Except TErr (List Node) :=
  (resolveStep (resolveFuel fs) fs (.resolve path [])).map (fun r => r.1)

/-- position argument of a parser call. -/
def pcPos : PCall → Nat
  | .node pos => pos
  | .elem pos => pos
  | .untl _ _ pos _ => pos

/-- final position of a parser result. -/
def prPos : (c : PCall) → PRetT c → Nat
  | .node _, r => r.2
  | .elem _, r => r.2
  | .untl .., r => r.2

/-- the two iteration-ceiling errors of the parser. -/
def isIterationGuard : TErr → Bool
  | .loopGuard _ => true
  | .loopGuardUntil _ _ => true
  | _ => false

-- --- Parser metatheory: position monotonicity ---

theorem skipWs_le (gas : Nat) : ∀ (cs : Str) (pos : Nat), pos ≤ skipWs gas cs pos := by
  induction gas with
  | zero => intro cs pos; simp [skipWs]
  | succ gas ih =>
    intro cs pos
    simp only [skipWs]
    split
    · exact le_trans (by omega) (ih cs (pos+1))
    · exact le_refl pos

theorem identScan_le (gas : Nat) :
    ∀ (cs : Str) (pos : Nat) (acc : Str), pos ≤ (identScan gas cs pos acc).2 := by
  induction gas with
  | zero => intro cs pos acc; simp [identScan]
  | succ gas ih =>
    intro cs pos acc
    simp only [identScan]
    split
    · exact le_trans (by omega) (ih cs (pos+1) _)
    · exact le_refl pos

theorem consumeIdentifier_le (gas : Nat) (cs : Str) (pos : Nat) :
    pos ≤ (consumeIdentifier gas cs pos).2 :=
  le_trans (skipWs_le gas cs pos) (identScan_le gas cs _ [])

theorem textScan_le (gas : Nat) :
    ∀ (cs : Str) (pos : Nat) (acc : Str), pos ≤ (textScan gas cs pos acc).2 := by
  induction gas with
  | zero => intro cs pos acc; simp [textScan]
  | succ gas ih =>
    intro cs pos acc
    simp only [textScan]
    split
    · split
      · exact le_refl pos
      · split
        · exact le_refl pos
        · exact le_trans (by omega) (ih cs (pos+1) _)
    · exact le_refl pos

theorem closingScan_le (gas : Nat) :
    ∀ (cs : Str) (pos : Nat), pos ≤ closingScan gas cs pos := by
  induction gas with
  | zero => intro cs pos; simp [closingScan]
  | succ gas ih =>
    intro cs pos
    simp only [closingScan]
    split
    · split
      · omega
      · exact le_trans (by omega) (ih cs (pos+1))
    · exact le_refl pos

theorem elemScan_le (gas : Nat) :
    ∀ (cs : Str) (pos : Nat), pos ≤ elemScan gas cs pos := by
  induction gas with
  | zero => intro cs pos; simp [elemScan]
  | succ gas ih =>
    intro cs pos
    simp only [elemScan]
    split
    · exact le_trans (by omega) (ih cs (pos+1))
    · exact le_refl pos

theorem quoteScan_le (gas : Nat) :
    ∀ (cs : Str) (quote : Char) (pos : Nat) (acc : Str),
      pos ≤ (quoteScan gas cs quote pos acc).2 := by
  induction gas with
  | zero => intro cs quote pos acc; simp [quoteScan]
  | succ gas ih =>
    intro cs quote pos acc
    simp only [quoteScan]
    split
    · exact le_trans (by omega) (ih cs quote (pos+1) _)
    · exact le_refl pos

theorem unquotedScan_le (gas : Nat) :
    ∀ (cs : Str) (pos : Nat) (acc : Str), pos ≤ (unquotedScan gas cs pos acc).2 := by
  induction gas with
  | zero => intro cs pos acc; simp [unquotedScan]
  | succ gas ih =>
    intro cs pos acc
    simp only [unquotedScan]
    split
    · exact le_trans (by omega) (ih cs (pos+1) _)
    · exact le_refl pos

theorem attrValue_le (cs : Str) (p2 : Nat) : p2 ≤ (attrValue cs p2).2 := by
  have h0 : p2 ≤ skipWs (gasOf cs) cs p2 := skipWs_le _ _ _
  simp only [attrValue]
  generalize hg : skipWs (gasOf cs) cs p2 = p3 at h0 ⊢
  refine le_trans h0 ?_
  split
  · have h1 : p3 + 1 ≤ skipWs (gasOf cs) cs (p3 + 1) := skipWs_le _ _ _
    generalize hg4 : skipWs (gasOf cs) cs (p3 + 1) = p4 at h1 ⊢
    split
    · split
      · have h2 : p4 + 1 ≤ (quoteScan (gasOf cs) cs (charAt cs p4) (p4 + 1) []).2 :=
          quoteScan_le _ _ _ _ _
        omega
      · have h2 : p4 ≤ (unquotedScan (gasOf cs) cs p4 []).2 := unquotedScan_le _ _ _ _
        omega
    · omega
  · exact le_refl p3

theorem attrsLoop_le (gas : Nat) :
    ∀ (cs : Str) (pos : Nat) (attrs : AttrMap), pos ≤ (attrsLoop gas cs pos attrs).2 := by
  induction gas with
  | zero => intro cs pos attrs; simp [attrsLoop]
  | succ gas ih =>
    intro cs pos attrs
    simp only [attrsLoop]
    have hp : pos ≤ skipWs (gasOf cs) cs pos := skipWs_le _ _ _
    generalize hg : skipWs (gasOf cs) cs pos = p at hp ⊢
    refine le_trans hp ?_
    split
    · exact le_refl p
    · have hk : p ≤ (consumeIdentifier (gasOf cs) cs p).2 := consumeIdentifier_le _ _ _
      generalize hg2 : consumeIdentifier (gasOf cs) cs p = kp at hk ⊢
      split
      · refine le_trans ?_ (ih cs _ attrs)
        split
        · exact hk
        · omega
      · refine le_trans hk (le_trans (attrValue_le cs kp.2) (ih cs _ _))

theorem elemHead_le (cs : Str) (pos : Nat) : pos + 2 ≤ (elemHead cs pos).2.2 := by
  simp only [elemHead]
  refine le_trans (consumeIdentifier_le (gasOf cs) cs (pos + 2)) ?_
  refine le_trans (attrsLoop_le (gasOf cs) cs _ []) ?_
  refine le_trans (skipWs_le (gasOf cs) cs _) ?_
  generalize hg : skipWs (gasOf cs) cs (attrsLoop (gasOf cs) cs (consumeIdentifier (gasOf cs) cs (pos + 2)).2 []).2 = p4
  split
  · omega
  · have h1 : p4 ≤ elemScan (gasOf cs) cs p4 := elemScan_le _ _ _
    split
    · omega
    · exact h1

theorem startsWithAt_bound {cs : Str} {pos : Nat} {s : Str}
    (h : startsWithAt cs pos s = true) : pos + s.length ≤ cs.length := by
  simp only [startsWithAt, Bool.and_eq_true, decide_eq_true_eq] at h
  exact h.1

/-- each parser routine only moves the position forward. -/
theorem parseStep_le :
    ∀ (fuel : Nat) (cs : Str) (c : PCall) (r : PRetT c),
      parseStep fuel cs c = .ok r → pcPos c ≤ prPos c r := by
  intro fuel
  induction fuel with
  | zero => intro cs c r h; simp [parseStep] at h
  | succ fuel ih =>
    intro cs c r h
    cases c with
    | node pos =>
      simp only [parseStep] at h
      split at h
      · simp only [Except.ok.injEq] at h; subst h; exact le_refl pos
      · split at h
        · cases hE : parseStep fuel cs (.elem pos) with
          | error e => rw [hE] at h; simp [Except.map] at h
          | ok np =>
            rw [hE] at h
            simp only [Except.map, Except.ok.injEq] at h
            subst h
            exact ih cs (.elem pos) np hE
        · split at h <;>
          · simp only [Except.ok.injEq] at h
            subst h
            exact textScan_le (gasOf cs) cs pos []
    | elem pos =>
      simp only [parseStep] at h
      split at h
      · simp only [Except.ok.injEq] at h
        subst h
        simp only [pcPos, prPos]
        exact le_trans (by omega) (elemHead_le cs pos)
      · cases hU : parseStep fuel cs (.untl (elemHead cs pos).1 0 (elemHead cs pos).2.2 []) with
        | error e => rw [hU] at h; simp [Except.map] at h
        | ok rp =>
          rw [hU] at h
          simp only [Except.map, Except.ok.injEq] at h
          subst h
          have h2 := ih cs (.untl (elemHead cs pos).1 0 (elemHead cs pos).2.2 []) rp hU
          simp only [pcPos, prPos] at h2 ⊢
          have h3 := elemHead_le cs pos
          omega
    | untl name iters pos acc =>
      simp only [parseStep] at h
      split at h
      · simp only [Except.ok.injEq] at h; subst h; exact le_refl pos
      · split at h
        · exact absurd h (by simp)
        · split at h
          · simp only [Except.ok.injEq] at h
            subst h
            exact closingScan_le (gasOf cs) cs pos
          · split at h
            · exact absurd h (by simp)
            · rename_i n p hN
              have h1 := ih cs (.node pos) (some n, p) hN
              have h2 := ih cs (.untl name (iters+1) p (acc ++ [n])) r h
              simp only [pcPos, prPos] at h1 h2 ⊢
              omega
            · rename_i p hN
              simp only [Except.ok.injEq] at h
              subst h
              have h1 := ih cs (.node pos) (none, p) hN
              simpa [pcPos, prPos] using h1


/-- fuel sufficiency: with fuel at least linear in the remaining input
(`rr` bounds `cs.length - pos`), no parser routine can exhaust its fuel —
nesting consumes at least two characters per level and each scanning
loop is cut off by its 10000-iteration guard. -/
theorem parseStep_noFuel :
    ∀ (rr : Nat) (cs : Str),
      (∀ (pos fuel : Nat), cs.length ≤ pos + rr → 10004 * rr + 10004 ≤ fuel →
        ¬ parseStep fuel cs (.node pos) = .error .fuelOut)
    ∧ (∀ (pos fuel : Nat), cs.length ≤ pos + rr → pos + 2 ≤ cs.length →
        10004 * rr + 10003 ≤ fuel →
        ¬ parseStep fuel cs (.elem pos) = .error .fuelOut)
    ∧ (∀ (fuel : Nat) (name : Str) (iters pos : Nat) (acc : List Node),
        cs.length ≤ pos + rr → 10004 * rr + 10005 + (10001 - iters) ≤ fuel →
        ¬ parseStep fuel cs (.untl name iters pos acc) = .error .fuelOut) := by
  intro rr
  induction rr using Nat.strong_induction_on with
  | _ rr IH =>
    intro cs
    have helem : ∀ (pos fuel : Nat), cs.length ≤ pos + rr → pos + 2 ≤ cs.length →
        10004 * rr + 10003 ≤ fuel → ¬ parseStep fuel cs (.elem pos) = .error .fuelOut := by
      intro pos fuel h1 h2 h3
      obtain ⟨f, rfl⟩ : ∃ f, fuel = f + 1 := ⟨fuel - 1, by omega⟩
      simp only [parseStep]
      split
      · simp
      · have hrr : 2 ≤ rr := by omega
        have hhd := elemHead_le cs pos
        have hrem : cs.length ≤ (elemHead cs pos).2.2 + (rr - 2) := by omega
        have hfuel : 10004 * (rr - 2) + 10005 + (10001 - 0) ≤ f := by
          have hm : 10004 * rr = 10004 * (rr - 2) + 10004 * 2 := by
            rw [← Nat.mul_add]
            congr 1
            omega
          omega
        have hU := (IH (rr - 2) (by omega) cs).2.2 f (elemHead cs pos).1 0
          (elemHead cs pos).2.2 [] hrem hfuel
        intro hcon
        cases hE : parseStep f cs (.untl (elemHead cs pos).1 0 (elemHead cs pos).2.2 []) with
        | error e =>
          rw [hE] at hcon
          simp only [Except.map, Except.error.injEq] at hcon
          subst hcon
          exact hU hE
        | ok rp =>
          rw [hE] at hcon
          simp [Except.map] at hcon
    have hnode : ∀ (pos fuel : Nat), cs.length ≤ pos + rr → 10004 * rr + 10004 ≤ fuel →
        ¬ parseStep fuel cs (.node pos) = .error .fuelOut := by
      intro pos fuel h1 h2
      obtain ⟨f, rfl⟩ : ∃ f, fuel = f + 1 := ⟨fuel - 1, by omega⟩
      simp only [parseStep]
      split
      · simp
      · split
        · rename_i hend hsw
          simp only [Bool.and_eq_true] at hsw
          have hb := startsWithAt_bound hsw.1
          have h2le : pos + 2 ≤ cs.length := by
            simpa using hb
          intro hcon
          cases hE : parseStep f cs (.elem pos) with
          | error e =>
            rw [hE] at hcon
            simp only [Except.map, Except.error.injEq] at hcon
            subst hcon
            exact helem pos f h1 h2le (by omega) hE
          | ok np =>
            rw [hE] at hcon
            simp [Except.map] at hcon
        · split <;> simp
    have huntl : ∀ (fuel : Nat) (name : Str) (iters pos : Nat) (acc : List Node),
        cs.length ≤ pos + rr → 10004 * rr + 10005 + (10001 - iters) ≤ fuel →
        ¬ parseStep fuel cs (.untl name iters pos acc) = .error .fuelOut := by
      intro fuel
      induction fuel with
      | zero => intro name iters pos acc h1 h2; omega
      | succ f ihf =>
        intro name iters pos acc h1 h2
        simp only [parseStep]
        split
        · simp
        · split
          · simp
          · split
            · simp
            · rename_i hend hguard hclose
              intro hcon
              cases hN : parseStep f cs (.node pos) with
              | error e =>
                rw [hN] at hcon
                simp only [Except.error.injEq] at hcon
                subst hcon
                exact hnode pos f h1 (by omega) hN
              | ok op =>
                rw [hN] at hcon
                obtain ⟨onode, p⟩ := op
                cases onode with
                | none => simp at hcon
                | some n =>
                  have hp := parseStep_le f cs (.node pos) (some n, p) hN
                  simp only [pcPos, prPos] at hp
                  exact ihf name (iters + 1) p (acc ++ [n]) (by omega) (by omega) hcon
    exact ⟨hnode, helem, huntl⟩

/-- fuel sufficiency for the top-level parse loop. -/
theorem topLoopF_noFuel :
    ∀ (fuel : Nat) (cs : Str) (iters pos : Nat) (acc : List Node),
      10004 * cs.length + 10005 + (10001 - iters) ≤ fuel →
      ¬ topLoopF fuel cs iters pos acc = .error .fuelOut := by
  intro fuel
  induction fuel with
  | zero => intro cs iters pos acc h; omega
  | succ f ihf =>
    intro cs iters pos acc h
    simp only [topLoopF]
    split
    · simp
    · split
      · simp
      · rename_i hend hguard
        intro hcon
        cases hN : parseNodeF f cs pos with
        | error e =>
          rw [hN] at hcon
          simp only [Except.error.injEq] at hcon
          subst hcon
          exact (parseStep_noFuel cs.length cs).1 pos f (by omega) (by omega)
            (by simpa [parseNodeF] using hN)
        | ok op =>
          rw [hN] at hcon
          obtain ⟨onode, p⟩ := op
          cases onode with
          | none => simp at hcon
          | some n => exact ihf cs (iters + 1) p (acc ++ [n]) (by omega) hcon

/-- `parse` never exhausts the fuel supplied by `parseFuel`. -/
theorem parse_noFuel (cs : Str) : ¬ parse cs = .error .fuelOut := by
  have h := topLoopF_noFuel (parseFuel cs) cs 0 0 []
    (by simp only [parseFuel]; omega)
  simpa [parse] using h

-- --- Shared fixtures and helper lemmas ---

/-- the empty render context (`json!({})` is modelled by `null`; both
traverse to `None` for every key). -/
def ctx0 : Ctx := ⟨.null, []⟩

/-- parent/child pair of the slot/block test. -/
def fsSlotBlock : TemplateFS :=
  [("parent".toList, "<?slot id=\"content\"?>Default</?slot?>".toList),
   ("child".toList, "<?load file=\"parent\"?><?block slot=\"content\"?>X</?block?>".toList)]

/-- two templates loading each other. -/
def fsCycle : TemplateFS :=
  [("a".toList, "<?load file=\"b\"?>".toList),
   ("b".toList, "<?load file=\"a\"?>".toList)]

/-- diamond: `top` loads `b` and `c`, which both load `d`. -/
def fsDiamond : TemplateFS :=
  [("top".toList, "<?load file=\"b\"?><?load file=\"c\"?>".toList),
   ("b".toList, "<?load file=\"d\"?>".toList),
   ("c".toList, "<?load file=\"d\"?>".toList),
   ("d".toList, "D".toList)]

/-- the visited set recorded in a resolver call descriptor. -/
def rsVisited : RsCall → List Str
  | .resolve _ v => v
  | .loop _ _ v _ => v

/-- concrete data context whose `items` collection the `for` directive
ought to iterate. -/
def ctxItems : Ctx := ⟨.obj [("items".toList, .arr [.str ("a".toList)])], []⟩

/-- context refuting the claimed split-at-first-occurrence semantics:
`a` is bound to `b==c`. -/
def ctxEq : Ctx := ⟨.null, [("a".toList, "b==c".toList)]⟩

/-- On success, `resolve_with_tracking` returns the visited set it was
given: each path inserted along the way is removed again on return. -/
theorem resolveStep_visited_preserved :
    ∀ (fuel : Nat) (fs : TemplateFS) (c : RsCall) (r : List Node × List Str),
      resolveStep fuel fs c = .ok r → r.2 = rsVisited c := by
  intro fuel
  induction fuel with
  | zero => intro fs c r h; simp [resolveStep] at h
  | succ fuel ih =>
    intro fs c r h
    cases c with
    | resolve path visited =>
      simp only [resolveStep] at h
      split at h
      · exact absurd h (by simp)
      · split at h
        · exact absurd h (by simp)
        · rename_i content hread
          split at h
          · exact absurd h (by simp)
          · rename_i nodes hparse
            split at h
            · exact absurd h (by simp)
            · rename_i rp hloop
              have hv := ih fs _ _ hloop
              simp only [Except.ok.injEq] at h
              subst h
              simp only [rsVisited] at hv ⊢
              rw [hv]
              exact List.erase_cons_head path visited
    | loop blocks nodes visited acc =>
      cases nodes with
      | nil =>
        simp only [resolveStep, Except.ok.injEq] at h
        subst h; rfl
      | cons node rest =>
        cases node with
        | Text s =>
          simp only [resolveStep] at h
          simpa [rsVisited] using ih fs (.loop blocks rest visited (acc ++ [.Text s])) r h
        | Element name attrs children =>
          simp only [resolveStep] at h
          simpa [rsVisited] using
            ih fs (.loop blocks rest visited (acc ++ [.Element name attrs children])) r h
        | VoidElement name attrs =>
          simp only [resolveStep] at h
          split at h
          · split at h
            · rename_i file hfile
              split at h
              · exact absurd h (by simp)
              · rename_i loaded visited2 hres
                have h1 := ih fs (.resolve file visited) (loaded, visited2) hres
                have h2 := ih fs (.loop blocks rest visited2
                  (acc ++ injectBlocksF (injectFuel fs) blocks loaded)) r h
                simp only [rsVisited] at h1 h2 ⊢
                rw [h2, h1]
            · simpa [rsVisited] using
                ih fs (.loop blocks rest visited (acc ++ [.VoidElement name attrs])) r h
          · simpa [rsVisited] using
              ih fs (.loop blocks rest visited (acc ++ [.VoidElement name attrs])) r h

-- --- Claim theorems ---

/-- C1: a `slot` element whose `id` matches a block entry is replaced
entirely by the block's children (its default body is consumed); a `slot`
with no matching entry dissolves into its own (recursively processed)
children; injection recurses through other elements, reaching slots
anywhere in the subtree; end to end, resolving the child template of the
slot/block pair yields exactly the block content, and its rendering
contains the block text and neither the default text nor any slot/block
directive syntax. -/
theorem C1_slot_block_replacement :
    (∀ (fuel : Nat) (blocks : List (Str × List Node)) (attrs : AttrMap)
       (children rest : List Node) (id : Str) (content : List Node),
        attrs.lookup ("id".toList) = some id →
        blocks.lookup id = some content →
        injectBlocksF (fuel+1) blocks (.Element ("slot".toList) attrs children :: rest) =
          content ++ injectBlocksF fuel blocks rest)
  ∧ (∀ (fuel : Nat) (blocks : List (Str × List Node)) (attrs : AttrMap)
       (children rest : List Node) (id : Str),
        attrs.lookup ("id".toList) = some id →
        blocks.lookup id = none →
        injectBlocksF (fuel+1) blocks (.Element ("slot".toList) attrs children :: rest) =
          injectBlocksF fuel blocks children ++ injectBlocksF fuel blocks rest)
  ∧ (∀ (fuel : Nat) (blocks : List (Str × List Node)) (name : Str) (attrs : AttrMap)
       (children rest : List Node),
        ¬(name = "slot".toList) →
        injectBlocksF (fuel+1) blocks (.Element name attrs children :: rest) =
          .Element name attrs (injectBlocksF fuel blocks children)
            :: injectBlocksF fuel blocks rest)
  ∧ resolveT fsSlotBlock ("child".toList) = .ok [.Text ("X".toList)]
  ∧ renderNodes 10 [.Text ("X".toList)] ctx0 = .ok ("X".toList, ctx0)
  ∧ isInfixL ("X".toList) ("X".toList) = true
  ∧ isInfixL ("Default".toList) ("X".toList) = false
  ∧ isInfixL ("<?slot".toList) ("X".toList) = false
  ∧ isInfixL ("<?block".toList) ("X".toList) = false := by
  refine ⟨?_, ?_, ?_, by rfl, by rfl, by rfl, by rfl, by rfl, by rfl⟩
  · intro fuel blocks attrs children rest id content h1 h2
    simp only [injectBlocksF, h1, h2]
    simp
  · intro fuel blocks attrs children rest id h1 h2
    simp only [injectBlocksF, h1, h2]
    simp
  · intro fuel blocks name attrs children rest h1
    simp only [injectBlocksF]
    rw [if_neg h1]
    simp

/-- witness for C1: concrete instantiations of the three injection
equations. -/
theorem C1_slot_block_replacement_witness :
    ([(("c".toList : Str), [Node.Text ("Y".toList)])].lookup ("c".toList) =
        some [Node.Text ("Y".toList)])
  ∧ injectBlocksF 2 [("c".toList, [Node.Text ("Y".toList)])]
      [.Element ("slot".toList) [("id".toList, "c".toList)] [.Text ("D".toList)]] =
      [Node.Text ("Y".toList)]
  ∧ injectBlocksF 2 [] [.Element ("slot".toList) [("id".toList, "c".toList)]
      [.Text ("D".toList)]] = [Node.Text ("D".toList)]
  ∧ injectBlocksF 2 [] [.Element ("div".toList) []
      [.Element ("slot".toList) [("id".toList, "c".toList)] [.Text ("D".toList)]]] =
      [.Element ("div".toList) [] [.Text ("D".toList)]] := by
  refine ⟨by rfl, ?_, ?_, ?_⟩
  · have h := C1_slot_block_replacement.1 1 [("c".toList, [Node.Text ("Y".toList)])]
      [("id".toList, "c".toList)] [.Text ("D".toList)] [] ("c".toList)
      [Node.Text ("Y".toList)] (by rfl) (by rfl)
    rw [h]; rfl
  · have h := C1_slot_block_replacement.2.1 1 [] [("id".toList, "c".toList)]
      [.Text ("D".toList)] [] ("c".toList) (by rfl) (by rfl)
    rw [h]; rfl
  · have h := C1_slot_block_replacement.2.2.1 1 [] ("div".toList) []
      [.Element ("slot".toList) [("id".toList, "c".toList)] [.Text ("D".toList)]] []
      (by simp)
    rw [h]
    have h2 := C1_slot_block_replacement.2.1 0 [] [("id".toList, "c".toList)]
      [.Text ("D".toList)] [] ("c".toList) (by rfl) (by rfl)
    rw [h2]
    rfl

/-- C2: resolution fails with the circular-dependency error precisely on
revisiting a path already in the chain-scoped visited set (first
conjunct); every successful resolution returns the visited set it
started from, paths being removed on return (second conjunct); hence a
direct cycle fails with the circular error and a diamond inclusion
(both branches loading the same template, no cycle along one chain)
succeeds, producing two independent copies of the shared content. -/
theorem C2_chain_scoped_cycle_detection :
    (∀ (fuel : Nat) (fs : TemplateFS) (path : Str) (visited : List Str),
        visited.contains path = true →
        resolveStep (fuel+1) fs (.resolve path visited) = .error (.circular path))
  ∧ (∀ (fuel : Nat) (fs : TemplateFS) (c : RsCall) (r : List Node × List Str),
        resolveStep fuel fs c = .ok r → r.2 = rsVisited c)
  ∧ resolveT fsCycle ("a".toList) = .error (.circular ("a".toList))
  ∧ resolveT fsDiamond ("top".toList) = .ok [.Text ("D".toList), .Text ("D".toList)] := by
  refine ⟨?_, resolveStep_visited_preserved, by rfl, by rfl⟩
  intro fuel fs path visited h
  have h2 : path ∈ visited := by simpa using h
  simp [resolveStep, h2]

/-- witness for C2: the revisit rule and the visited-set restoration at
concrete inputs. -/
theorem C2_chain_scoped_cycle_detection_witness :
    ([("a".toList : Str)].contains ("a".toList) = true
      ∧ resolveStep 5 fsCycle (.resolve ("a".toList) [("a".toList)]) =
          .error (.circular ("a".toList)))
  ∧ ([Node.Text ("D".toList), Node.Text ("D".toList)],
      ([] : List Str)).2 = rsVisited (.resolve ("top".toList) []) := by
  refine ⟨⟨by rfl, C2_chain_scoped_cycle_detection.1 4 fsCycle _ _ (by rfl)⟩, ?_⟩
  exact C2_chain_scoped_cycle_detection.2.1 (resolveFuel fsDiamond) fsDiamond
    (.resolve ("top".toList) []) _ (by rfl)

/-- C3: the claim states the intended contract (iterate the collection
addressed from the context by the `in` attribute); the code instead
iterates a fixed placeholder list `["item1","item2","item3"]` regardless
of the context: rendering the loop body `<?get id="x"?>;` under a context
whose data holds `items = ["a"]` yields `item1;item2;item3;`, not `a;`,
even though the data tree does contain the addressed collection. -/
theorem C3_for_iterates_fixed_placeholder :
    (parse ("<?for in=\"x items\"?><?get id=\"x\"?>;</?for?>".toList)).map
        (fun ns => (renderNodes 100 ns ctxItems).map (fun r => r.1)) =
      .ok (.ok ("item1;item2;item3;".toList))
  ∧ jGet ctxItems.data ("items".toList) = some (.arr [.str ("a".toList)]) := by
  exact ⟨by rfl, by rfl⟩

/-- C4: the void-form `set` never reaches the renderer's void-`set`
handler because `set` is not in the void-name set: `<?set id="x"
value="y"?>` parses as an `Element` that swallows the following `<?get
id="x"?>` as a child, and the element handler assigns the rendered
children (the empty string) to `x`, ignoring `value`; with an explicit
closing tag (genuinely empty children) the behaviour is the same: `x` is
bound to the empty string, not to `y`, and the claimed `y` output never
appears. -/
theorem C4_void_set_assigns_rendered_children :
    parse ("<?set id=\"x\" value=\"y\"?><?get id=\"x\"?>".toList) =
      .ok [.Element ("set".toList)
            [("id".toList, "x".toList), ("value".toList, "y".toList)]
            [.VoidElement ("get".toList) [("id".toList, "x".toList)]]]
  ∧ (parse ("<?set id=\"x\" value=\"y\"?><?get id=\"x\"?>".toList)).map
        (fun ns => (renderNodes 100 ns ctx0).map
          (fun r => (r.1, r.2.vars.lookup ("x".toList)))) =
      .ok (.ok (([] : Str), some ([] : Str)))
  ∧ (parse ("<?set id=\"x\" value=\"y\"?></?set?><?get id=\"x\"?>".toList)).map
        (fun ns => (renderNodes 100 ns ctx0).map
          (fun r => (r.1, r.2.vars.lookup ("x".toList)))) =
      .ok (.ok (([] : Str), some ([] : Str))) := by
  exact ⟨by rfl, by rfl, by rfl⟩

/-- counterexample to C5 as stated: for `cond = "a==b==c"`, the left
operand of the first `==` looks up to exactly the quote-stripped right
operand (`b==c`), so the claimed semantics yields `true`; the code
splits on every occurrence, gets three parts, and falls back to
truthiness of the whole string, yielding `false`. -/
theorem C5_split_once_counterexample :
    ctxGet ctxEq (trimWs ("a".toList)) =
      trimMatches '\'' (trimMatches '"' (trimWs ("b==c".toList)))
  ∧ evalCondition ("a==b==c".toList) ctxEq = false := by
  exact ⟨by rfl, by rfl⟩

/-- C5 (amended): the cond string is split on every occurrence of `==`;
only when this yields exactly two parts (exactly one occurrence) is the
trimmed left part looked up and compared for string equality against the
right part trimmed and with surrounding quote characters stripped; in
every other case (no `==`, or two or more occurrences) the whole cond is
treated as a variable name, true iff its lookup is non-empty; `if`
renders exactly one of the two branches split at the `else` marker. -/
theorem C5_condition_evaluation :
    (∀ (cond : Str) (ctx : Ctx),
        isInfixL ("==".toList) cond = true →
        (splitOnL ("==".toList) cond).length = 2 →
        evalCondition cond ctx =
          (ctxGet ctx (trimWs ((splitOnL ("==".toList) cond).getD 0 [])) ==
            trimMatches '\'' (trimMatches '"'
              (trimWs ((splitOnL ("==".toList) cond).getD 1 [])))))
  ∧ (∀ (cond : Str) (ctx : Ctx),
        isInfixL ("==".toList) cond = true →
        ¬((splitOnL ("==".toList) cond).length = 2) →
        evalCondition cond ctx = !(ctxGet ctx cond).isEmpty)
  ∧ (∀ (cond : Str) (ctx : Ctx),
        isInfixL ("==".toList) cond = false →
        evalCondition cond ctx = !(ctxGet ctx cond).isEmpty)
  ∧ (∀ (fuel : Nat) (attrs : AttrMap) (children : List Node) (ctx : Ctx),
        renderStep (fuel+1) (.rif attrs children ctx) =
          if evalCondition ((attrs.lookup ("cond".toList)).getD []) ctx
          then renderStep fuel (.nodes (splitIfChildren children).1 ctx)
          else renderStep fuel (.nodes (splitIfChildren children).2 ctx)) := by
  refine ⟨?_, ?_, ?_, ?_⟩
  · intro cond ctx h1 h2
    simp only [evalCondition, h1, h2, if_true, if_pos]
  · intro cond ctx h1 h2
    simp only [evalCondition, h1, if_true, if_neg h2]
  · intro cond ctx h1
    simp only [evalCondition, h1, Bool.false_eq_true, if_false]
  · intro fuel attrs children ctx
    simp only [renderStep]

/-- witness for C5 (amended): concrete instantiations of the three
evaluation rules and the single-branch rule. -/
theorem C5_condition_evaluation_witness :
    (isInfixL ("==".toList) ("a==b".toList) = true
      ∧ (splitOnL ("==".toList) ("a==b".toList)).length = 2
      ∧ evalCondition ("a==b".toList) ctx0 =
          (ctxGet ctx0 (trimWs ((splitOnL ("==".toList) ("a==b".toList)).getD 0 [])) ==
            trimMatches '\'' (trimMatches '"'
              (trimWs ((splitOnL ("==".toList) ("a==b".toList)).getD 1 [])))))
  ∧ evalCondition ("a==b==c".toList) ctx0 = !(ctxGet ctx0 ("a==b==c".toList)).isEmpty
  ∧ evalCondition ("flag".toList) ctx0 = !(ctxGet ctx0 ("flag".toList)).isEmpty
  ∧ renderStep 9 (.rif [("cond".toList, "x".toList)] [Node.Text ("T".toList)] ctx0) =
      (if evalCondition (([("cond".toList, "x".toList)] : AttrMap).lookup ("cond".toList) |>.getD []) ctx0
       then renderStep 8 (.nodes (splitIfChildren [Node.Text ("T".toList)]).1 ctx0)
       else renderStep 8 (.nodes (splitIfChildren [Node.Text ("T".toList)]).2 ctx0)) := by
  refine ⟨⟨by rfl, by rfl, ?_⟩, ?_, ?_, ?_⟩
  · exact C5_condition_evaluation.1 ("a==b".toList) ctx0 (by rfl) (by rfl)
  · exact C5_condition_evaluation.2.1 ("a==b==c".toList) ctx0 (by rfl) (by simp [splitOnL, splitOnAux])
  · exact C5_condition_evaluation.2.2.1 ("flag".toList) ctx0 (by rfl)
  · exact C5_condition_evaluation.2.2.2 8 [("cond".toList, "x".toList)] [Node.Text ("T".toList)] ctx0

/-- C6: `Context::get` returns the overlay value when the key is in the
overlay; otherwise it splits the path on `.` and traverses the data tree
segment by segment, yielding empty string (never an error — the function
is total) on a missing segment or non-traversable value, the string
itself for a string, numbers and booleans as plain text, and empty
string for a found object or array. -/
theorem C6_context_get_lookup :
    (∀ (c : Ctx) (key v : Str), c.vars.lookup key = some v → ctxGet c key = v)
  ∧ (∀ (c : Ctx) (key : Str), c.vars.lookup key = none →
        walkParts c.data (splitOnL (".".toList) key) = none → ctxGet c key = [])
  ∧ (∀ (c : Ctx) (key : Str) (cur : JValue), c.vars.lookup key = none →
        walkParts c.data (splitOnL (".".toList) key) = some cur →
        ctxGet c key = stringifyScalar cur)
  ∧ (∀ (cur : JValue) (p : Str) (rest : List Str), jGet cur p = none →
        walkParts cur (p :: rest) = none)
  ∧ (∀ (cur v : JValue) (p : Str) (rest : List Str), jGet cur p = some v →
        walkParts cur (p :: rest) = walkParts v rest)
  ∧ (∀ s, stringifyScalar (.str s) = s)
  ∧ (∀ n, stringifyScalar (.num n) = (toString n).toList)
  ∧ (∀ b, stringifyScalar (.bool b) = (toString b).toList)
  ∧ (∀ xs, stringifyScalar (.arr xs) = [])
  ∧ (∀ fields, stringifyScalar (.obj fields) = []) := by
  refine ⟨?_, ?_, ?_, ?_, ?_,
    fun s => rfl, fun n => rfl, fun b => rfl, fun xs => rfl, fun fields => rfl⟩
  · intro c key v h
    simp only [ctxGet, h]
  · intro c key h1 h2
    simp only [ctxGet, h1, h2]
  · intro c key cur h1 h2
    simp only [ctxGet, h1, h2]
  · intro cur p rest h
    simp only [walkParts, h]
  · intro cur v p rest h
    simp only [walkParts, h]

/-- witness for C6: overlay hit, dotted traversal through an object, a
missing path, and a number leaf, at concrete inputs. -/
theorem C6_context_get_lookup_witness :
    ((⟨.null, [("k".toList, "v".toList)]⟩ : Ctx).vars.lookup ("k".toList) =
        some ("v".toList)
      ∧ ctxGet ⟨.null, [("k".toList, "v".toList)]⟩ ("k".toList) = "v".toList)
  ∧ ctxGet ⟨.obj [("u".toList, .obj [("n".toList, .num 7)])], []⟩ ("u.n".toList) =
      (toString (7 : Int)).toList
  ∧ ctxGet ctx0 ("missing".toList) = []
  ∧ walkParts (.obj [("u".toList, .num 7)]) ("u".toList :: []) =
      walkParts (.num 7) [] := by
  refine ⟨⟨by rfl, ?_⟩, ?_, ?_, ?_⟩
  · exact C6_context_get_lookup.1 _ ("k".toList) ("v".toList) (by rfl)
  · exact C6_context_get_lookup.2.2.1 _ ("u.n".toList) (.num 7) (by rfl) (by rfl)
  · exact C6_context_get_lookup.2.1 ctx0 ("missing".toList) (by rfl) (by rfl)
  · exact C6_context_get_lookup.2.2.2.2.1 (.obj [("u".toList, .num 7)]) (.num 7)
      ("u".toList) [] (by rfl)

/-- C7: overlay assignments inside `if` branches persist — rendering an
`if` element returns exactly the context produced by rendering the taken
branch (first two conjuncts, general); overlay assignments inside `for`
bodies happen in a per-iteration copy — rendering a `for` element always
returns the caller's context unchanged (third conjunct, general).
Concretely: a `set` inside a taken `if` branch is visible to a later
`get`; a `set` inside a `for` body is visible later in the same
iteration but not in the next iteration nor after the loop. -/
theorem C7_if_persists_for_isolates :
    (∀ (fuel : Nat) (attrs : AttrMap) (children : List Node) (ctx : Ctx)
        (r : Str × Ctx),
        renderStep (fuel+1) (.node (.Element ("for".toList) attrs children) ctx) = .ok r →
        r.2 = ctx)
  ∧ (∀ (fuel : Nat) (attrs : AttrMap) (children : List Node) (ctx : Ctx)
        (s : Str) (ctx1 : Ctx),
        renderStep fuel (.rif attrs children ctx) = .ok (s, ctx1) →
        renderStep (fuel+1) (.node (.Element ("if".toList) attrs children) ctx) =
          .ok (s, ctx1))
  ∧ (parse ("<?if cond=\"==\"?><?set id=\"v\"?>A</?set?></?if?><?get id=\"v\"?>".toList)).map
        (fun ns => (renderNodes 100 ns ctx0).map (fun r => r.1)) =
      .ok (.ok ("A".toList))
  ∧ (parse ("<?for in=\"i\"?><?set id=\"y\"?>Z</?set?><?get id=\"y\"?>;</?for?><?get id=\"y\"?>!".toList)).map
        (fun ns => (renderNodes 100 ns ctx0).map (fun r => r.1)) =
      .ok (.ok ("Z;Z;Z;!".toList))
  ∧ (parse ("<?for in=\"i\"?><?get id=\"y\"?><?set id=\"y\"?>Z</?set?></?for?>@<?get id=\"y\"?>".toList)).map
        (fun ns => (renderNodes 100 ns ctx0).map (fun r => r.1)) =
      .ok (.ok ("@".toList)) := by
  refine ⟨?_, ?_, by rfl, by rfl, by rfl⟩
  · intro fuel attrs children ctx r h
    simp [renderStep] at h
    split at h
    · exact absurd h (by simp)
    · rename_i s hfor
      simp only [Except.ok.injEq] at h
      subst h
      rfl
  · intro fuel attrs children ctx s ctx1 h
    simp [renderStep]
    exact h

/-- witness for C7: the `for` context-restoration and `if`
context-threading rules at concrete inputs. -/
theorem C7_if_persists_for_isolates_witness :
    (renderStep 9 (.node (.Element ("for".toList) [] [Node.Text ("t".toList)]) ctx0) =
        .ok ("ttt".toList, ctx0)
      ∧ (("ttt".toList : Str), ctx0).2 = ctx0)
  ∧ (renderStep 9 (.rif [("cond".toList, "==".toList)] [Node.Text ("T".toList)] ctx0) =
        .ok ("T".toList, ctx0)
      ∧ renderStep 10 (.node (.Element ("if".toList) [("cond".toList, "==".toList)]
          [Node.Text ("T".toList)]) ctx0) = .ok ("T".toList, ctx0)) := by
  refine ⟨⟨by rfl, ?_⟩, ⟨by rfl, ?_⟩⟩
  · exact C7_if_persists_for_isolates.1 9 [] [Node.Text ("t".toList)] ctx0
      ("ttt".toList, ctx0) (by rfl)
  · exact C7_if_persists_for_isolates.2.1 9 [("cond".toList, "==".toList)]
      [Node.Text ("T".toList)] ctx0 ("T".toList) ctx0 (by rfl)

/-- C9: rendering a `btn` element yields a `<button>` whose data
attribute is `data-post` with the `post` value when a `post` attribute
is present and otherwise `data-get` with the `get` value (empty when
absent), with `data-target` defaulting to `#body` and `data-swap`
defaulting to `innerHTML`, wrapping the recursively rendered children;
concretely, the spec's example renders with all three attributes and the
`Click Me` text, and a `btn` with only a `get` attribute picks
`data-get` and both defaults. -/
theorem C9_btn_desugaring :
    (∀ (fuel : Nat) (attrs : AttrMap) (children : List Node) (ctx ctx1 : Ctx)
        (inner : Str),
        renderStep fuel (.nodes children ctx) = .ok (inner, ctx1) →
        renderStep (fuel+1) (.node (.Element ("btn".toList) attrs children) ctx) =
          .ok (("<button class=\"btn btn-primary\" data-".toList)
            ++ (if (attrs.lookup ("post".toList)).isSome
                then "post".toList else "get".toList)
            ++ ("=\"".toList)
            ++ ((attrs.lookup (if (attrs.lookup ("post".toList)).isSome
                then "post".toList else "get".toList)).getD [])
            ++ ("\" data-target=\"".toList)
            ++ ((attrs.lookup ("target".toList)).getD ("#body".toList))
            ++ ("\" data-swap=\"".toList)
            ++ ((attrs.lookup ("swap".toList)).getD ("innerHTML".toList))
            ++ ("\">".toList) ++ inner ++ ("</button>".toList), ctx1))
  ∧ (parse ("<?btn post=\"/api/increment\" target=\"#counter\" swap=\"innerHTML\"?>Click Me</?btn?>".toList)).map
        (fun ns => (renderNodes 100 ns ctx0).map (fun r => r.1)) =
      .ok (.ok ("<button class=\"btn btn-primary\" data-post=\"/api/increment\" data-target=\"#counter\" data-swap=\"innerHTML\">Click Me</button>".toList))
  ∧ (parse ("<?btn get=\"/x\"?>Hi</?btn?>".toList)).map
        (fun ns => (renderNodes 100 ns ctx0).map (fun r => r.1)) =
      .ok (.ok ("<button class=\"btn btn-primary\" data-get=\"/x\" data-target=\"#body\" data-swap=\"innerHTML\">Hi</button>".toList)) := by
  refine ⟨?_, by rfl, by rfl⟩
  intro fuel attrs children ctx ctx1 inner h
  simp [renderStep, h]

/-- witness for C9: the desugaring rule at a concrete input. -/
theorem C9_btn_desugaring_witness :
    renderStep 3 (.nodes [Node.Text ("Hi".toList)] ctx0) = .ok ("Hi".toList, ctx0)
  ∧ renderStep 4 (.node (.Element ("btn".toList)
      [("get".toList, "/x".toList)] [Node.Text ("Hi".toList)]) ctx0) =
      .ok (("<button class=\"btn btn-primary\" data-".toList)
        ++ (if (([("get".toList, "/x".toList)] : AttrMap).lookup ("post".toList)).isSome
            then "post".toList else "get".toList)
        ++ ("=\"".toList)
        ++ ((([("get".toList, "/x".toList)] : AttrMap).lookup
              (if (([("get".toList, "/x".toList)] : AttrMap).lookup ("post".toList)).isSome
               then "post".toList else "get".toList)).getD [])
        ++ ("\" data-target=\"".toList)
        ++ ((([("get".toList, "/x".toList)] : AttrMap).lookup ("target".toList)).getD ("#body".toList))
        ++ ("\" data-swap=\"".toList)
        ++ ((([("get".toList, "/x".toList)] : AttrMap).lookup ("swap".toList)).getD ("innerHTML".toList))
        ++ ("\">".toList) ++ ("Hi".toList) ++ ("</button>".toList), ctx0) := by
  refine ⟨by rfl, ?_⟩
  exact C9_btn_desugaring.1 3 [("get".toList, "/x".toList)] [Node.Text ("Hi".toList)]
    ctx0 ctx0 ("Hi".toList) (by rfl)

/-- the parser routines produce no error other than fuel exhaustion and
the iteration guards. -/
theorem parseStep_err_shape :
    ∀ (fuel : Nat) (cs : Str) (c : PCall) (e : TErr),
      parseStep fuel cs c = .error e → e = .fuelOut ∨ isIterationGuard e = true := by
  intro fuel
  induction fuel with
  | zero =>
    intro cs c e h
    simp only [parseStep, Except.error.injEq] at h
    exact Or.inl h.symm
  | succ f ih =>
    intro cs c e h
    cases c with
    | node pos =>
      simp only [parseStep] at h
      split at h
      · simp at h
      · split at h
        · cases hE : parseStep f cs (.elem pos) with
          | error e2 =>
            rw [hE] at h
            simp only [Except.map, Except.error.injEq] at h
            subst h
            exact ih cs (.elem pos) e2 hE
          | ok np => rw [hE] at h; simp [Except.map] at h
        · split at h <;> simp at h
    | elem pos =>
      simp only [parseStep] at h
      split at h
      · simp at h
      · cases hU : parseStep f cs (.untl (elemHead cs pos).1 0 (elemHead cs pos).2.2 []) with
        | error e2 =>
          rw [hU] at h
          simp only [Except.map, Except.error.injEq] at h
          subst h
          exact ih cs _ e2 hU
        | ok rp => rw [hU] at h; simp [Except.map] at h
    | untl name iters pos acc =>
      simp only [parseStep] at h
      split at h
      · simp at h
      · split at h
        · simp only [Except.error.injEq] at h
          subst h
          exact Or.inr rfl
        · split at h
          · simp at h
          · cases hN : parseStep f cs (.node pos) with
            | error e2 =>
              rw [hN] at h
              simp only [Except.error.injEq] at h
              subst h
              exact ih cs _ e2 hN
            | ok op =>
              rw [hN] at h
              obtain ⟨onode, p⟩ := op
              cases onode with
              | none => simp at h
              | some n => exact ih cs (.untl name (iters+1) p (acc ++ [n])) e h

/-- the top-level parse loop produces no error other than fuel
exhaustion and the iteration guards. -/
theorem topLoopF_err_shape :
    ∀ (fuel : Nat) (cs : Str) (iters pos : Nat) (acc : List Node) (e : TErr),
      topLoopF fuel cs iters pos acc = .error e →
      e = .fuelOut ∨ isIterationGuard e = true := by
  intro fuel
  induction fuel with
  | zero =>
    intro cs iters pos acc e h
    simp only [topLoopF, Except.error.injEq] at h
    exact Or.inl h.symm
  | succ f ih =>
    intro cs iters pos acc e h
    simp only [topLoopF] at h
    split at h
    · simp at h
    · split at h
      · simp only [Except.error.injEq] at h
        subst h
        exact Or.inr rfl
      · cases hN : parseNodeF f cs pos with
        | error e2 =>
          rw [hN] at h
          simp only [Except.error.injEq] at h
          subst h
          exact parseStep_err_shape f cs (.node pos) e2 (by simpa [parseNodeF] using hN)
        | ok op =>
          rw [hN] at h
          obtain ⟨onode, p⟩ := op
          cases onode with
          | none => simp at h
          | some n => exact ih cs (iters+1) p (acc ++ [n]) e h

/-- `parse_node` at a stray top-level closing sequence: `consume_text`
stops immediately, yielding an empty `Text` node without advancing. -/
theorem parseNode_stray (t : Str) (f : Nat) :
    parseStep (f+1) ('<' :: '/' :: '?' :: t) (.node 0) = .ok (some (.Text []), 0) := by
  simp [parseStep, startsWithAt, List.isPrefixOf, gasOf, textScan, charAt]

/-- the top-level parse loop spins on a stray closing sequence until the
iteration guard trips. -/
theorem topLoop_stray (t : Str) :
    ∀ (d : Nat), d ≤ 10000 → ∀ (acc : List Node) (fuel : Nat), 2 + d ≤ fuel →
      topLoopF fuel ('<' :: '/' :: '?' :: t) (10000 - d) 0 acc =
        .error (.loopGuard 0) := by
  intro d
  induction d with
  | zero =>
    intro _ acc fuel hf
    obtain ⟨f, rfl⟩ : ∃ f, fuel = f + 1 := ⟨fuel - 1, by omega⟩
    simp only [topLoopF]
    rw [if_neg (by simp only [List.length_cons]; omega)]
    rw [if_pos (by omega)]
  | succ d ihd =>
    intro hd acc fuel hf
    obtain ⟨f, rfl⟩ : ∃ f, fuel = f + 1 := ⟨fuel - 1, by omega⟩
    simp only [topLoopF]
    rw [if_neg (by simp only [List.length_cons]; omega)]
    rw [if_neg (by omega : ¬ (10000 - (d+1) + 1 > 10000))]
    obtain ⟨g, rfl⟩ : ∃ g, f = g + 1 := ⟨f - 1, by omega⟩
    have hn : parseNodeF (g+1) ('<' :: '/' :: '?' :: t) 0 = .ok (some (.Text []), 0) := by
      simpa [parseNodeF] using parseNode_stray t g
    rw [hn]
    have he : 10000 - (d+1) + 1 = 10000 - d := by omega
    rw [he]
    exact ihd (by omega) (acc ++ [.Text []]) (g+1) (by omega)

/-- a source whose text begins with `</?` makes `parse` fail with the
top-level iteration guard at position 0. -/
theorem parse_stray_closing (cs : Str)
    (h : startsWithAt cs 0 ("</?".toList) = true) :
    parse cs = .error (.loopGuard 0) := by
  simp only [startsWithAt, Bool.and_eq_true] at h
  have hpre : ("</?".toList).isPrefixOf cs = true := by
    simpa using h.2
  obtain ⟨t, ht⟩ := List.isPrefixOf_iff_prefix.mp hpre
  subst ht
  show topLoopF (parseFuel _) _ 0 0 [] = _
  rw [show (0 : Nat) = 10000 - 10000 from rfl]
  exact topLoop_stray t 10000 (le_refl _) []
    (parseFuel _) (by simp only [parseFuel, List.length_append, List.length_cons]; omega)

/-- C8: `parse` returns an error only when one of the fixed
10000-iteration ceilings of its scanning loops is exceeded — every error
it can produce is an iteration-guard error (the fuel of the embedding is
proved sufficient, and no other error constructor is reachable); in
particular, reaching end of input inside a non-void element without a
closing sequence is not an error: the children collected so far are
returned. -/
theorem C8_parse_error_only_guard :
    (∀ (cs : Str) (e : TErr), parse cs = .error e → isIterationGuard e = true)
  ∧ parse ("<?div?>hello".toList) =
      .ok [.Element ("div".toList) [] [.Text ("hello".toList)]]
  ∧ parse ("<?if cond=\"x\"?>unclosed".toList) =
      .ok [.Element ("if".toList) [("cond".toList, "x".toList)]
            [.Text ("unclosed".toList)]] := by
  refine ⟨?_, by rfl, by rfl⟩
  intro cs e h
  rcases topLoopF_err_shape (parseFuel cs) cs 0 0 [] e (by simpa [parse] using h) with hf | hg
  · subst hf
    exact absurd h (parse_noFuel cs)
  · exact hg

/-- witness for C8: a concrete failing parse, whose error is an
iteration-guard error. -/
theorem C8_parse_error_only_guard_witness :
    parse ("</?x?>".toList) = .error (.loopGuard 0)
  ∧ isIterationGuard (.loopGuard 0) = true := by
  have h := parse_stray_closing ("</?x?>".toList) (by rfl)
  exact ⟨h, C8_parse_error_only_guard.1 ("</?x?>".toList) (.loopGuard 0) h⟩

/-- C10: for any source that begins with the closing sequence `</?` at
top level, `parse` fails with the top-level iteration-guard ParseError
at position 0 (a stray closing sequence is not tolerated as literal
text), because `parse_node` on such input returns an empty `Text` node
without advancing the position, so the top-level loop repeats until the
ceiling is exceeded. -/
theorem C10_stray_closing_parse_fails :
    (∀ (cs : Str), startsWithAt cs 0 ("</?".toList) = true →
        parse cs = .error (.loopGuard 0))
  ∧ (∀ (t : Str) (f : Nat),
        parseStep (f+1) ('<' :: '/' :: '?' :: t) (.node 0) =
          .ok (some (.Text []), 0)) := by
  exact ⟨parse_stray_closing, parseNode_stray⟩

/-- witness for C10: the six-character input `</?x?>`. -/
theorem C10_stray_closing_parse_fails_witness :
    (startsWithAt ("</?x?>".toList) 0 ("</?".toList) = true
      ∧ parse ("</?x?>".toList) = .error (.loopGuard 0))
  ∧ parseStep 1 ('<' :: '/' :: '?' :: "x?>".toList) (.node 0) =
      .ok (some (.Text []), 0) := by
  exact ⟨⟨by rfl, C10_stray_closing_parse_fails.1 ("</?x?>".toList) (by rfl)⟩,
    C10_stray_closing_parse_fails.2 ("x?>".toList) 0⟩
